import Mathlib

/-!
Verification development for `svgfontembed` (src/svgfontembed/svgfontembed.py).

The Python source is shallowly embedded over `List Char` strings and `List Nat`
byte strings.  External collaborators (the HTTP client, the fontTools subsetting
engine, the parsel/tinycss parsing libraries) are modelled at their interfaces,
as the spec declares them out of scope: network calls are oracles passed in as
functions, the subsetting engine is an opaque function from bytes and characters
to bytes, and parsel/tinycss are modelled by small scanners covering the
constructs the program relies on (`<text>` elements with attributes, `<style>`
blocks, flat CSS rule sets with class/tag selectors; tinycss's CSS21 parser
drops unknown at-rules such as `@font-face`, which the model mirrors).

Python regular expressions used by the source are modelled by hand-written
scanners with the same matching semantics on the fragments involved
(`re.findall` / `re.search` / `re.sub` scan left to right for the leftmost
match and, for `findall`/`sub`, continue after the matched text).  `\s` and
`\d` are modelled as ASCII whitespace and ASCII digits.  Scanners take an
explicit fuel argument (one unit per character position) so that every
definition is structurally recursive and kernel-computable; wrappers pass the
input length as fuel, which always suffices.
-/

deriving instance DecidableEq for Except

abbrev Str := List Char

/-- Python `\s` (ASCII fragment): space, tab, newline, carriage return,
form feed, vertical tab. -/
def isPySpace (c : Char) : Bool :=
  c = ' ' || c = '\t' || c = '\n' || c = '\x0d' || c = '\x0c' || c = '\x0b'

/-- Consume an expected literal from the front of `s`, returning the remainder. -/
def expectLit : Str → Str → Option Str
  | [], s => some s
  | _ :: _, [] => none
  | l :: ls, c :: cs => if c = l then expectLit ls cs else none

/-- Strip ASCII whitespace from both ends (models Python `str.strip()` on the
fragments involved). -/
def trimWs (s : Str) : Str :=
  ((s.dropWhile isPySpace).reverse.dropWhile isPySpace).reverse

/-- Python `str.strip("\x22\x27 ")`: remove any leading and trailing double
quotes, single quotes and spaces. -/
def isStripQuote (c : Char) : Bool :=
  c = '\x22' || c = '\x27' || c = ' '

def pyStrip (s : Str) : Str :=
  ((s.dropWhile isStripQuote).reverse.dropWhile isStripQuote).reverse

/-- Split on a separator character (models `str.split(sep)` for one-character
separators: no merging of adjacent separators, empty pieces kept). -/
def splitOnChar (sep : Char) : Str → List Str
  | [] => [[]]
  | c :: rest =>
    let r := splitOnChar sep rest
    if c = sep then [] :: r
    else match r with
      | [] => [[c]]
      | p :: ps => (c :: p) :: ps

/-- De-duplicate a character list (models building `set(...)`; the resulting
order is irrelevant everywhere it is used). -/
def dedupChars : Str → Str
  | [] => []
  | c :: rest =>
    let r := dedupChars rest
    if c ∈ r then r else c :: r

/-- Python `a in b` for strings: substring containment (also models XPath
`contains`). -/
def isSubstring (pat : Str) : Str → Bool
  | [] => pat.isEmpty
  | c :: rest => (expectLit pat (c :: rest)).isSome || isSubstring pat rest

/-- Python `str.replace(pat, rep)` for a nonempty pattern: scan left to right,
replacing each (non-overlapping) occurrence.  Fuel is one unit per character
position. -/
def pyReplaceFuel (pat rep : Str) : Nat → Str → Str
  | _, [] => []
  | 0, s => s
  | fuel + 1, c :: rest =>
    match expectLit pat (c :: rest) with
    | some rem => rep ++ pyReplaceFuel pat rep fuel rem
    | none => c :: pyReplaceFuel pat rep fuel rest

/-- Python `str.replace`.  All call sites in the source pass a pattern matched
by the font-face regex, hence nonempty; the empty-pattern case (where Python
would interleave `rep`) never arises and is mapped to the identity. -/
def pyReplace (s pat rep : Str) : Str :=
  if pat.isEmpty then s else pyReplaceFuel pat rep s.length s

def litFontFace : Str := "@font-face".toList
-- "src:" and "url(" as explicit character lists (manipulated symbolically below)
def litSrcColon : Str := ['s', 'r', 'c', ':']
def litUrlOpen : Str := ['u', 'r', 'l', '(']
def litFontFamilyColon : Str := "font-family:".toList
def litFontFamilyAttr : Str := "font-family".toList

/-- One attempted match of `font_face_regex = @font-face\s*{[^}]*}` at the head
of `s`: on success returns the matched text and the remainder. -/
def tryFontFace (s : Str) : Option (Str × Str) :=
  match expectLit litFontFace s with
  | none => none
  | some s1 =>
    let sp := s1.takeWhile isPySpace
    let s2 := s1.dropWhile isPySpace
    match expectLit ['\x7b'] s2 with
    | none => none
    | some s3 =>
      let body := s3.takeWhile (fun c => c ≠ '\x7d')
      let s4 := s3.dropWhile (fun c => c ≠ '\x7d')
      match expectLit ['\x7d'] s4 with
      | none => none
      | some s5 => some (litFontFace ++ sp ++ '\x7b' :: body ++ ['\x7d'], s5)

/-- `font_face_regex.findall`: leftmost non-overlapping matches, in order. -/
def fontFaceFindAllFuel : Nat → Str → List Str
  | _, [] => []
  | 0, _ => []
  | fuel + 1, c :: rest =>
    match tryFontFace (c :: rest) with
    | some (m, rem) => m :: fontFaceFindAllFuel fuel rem
    | none => fontFaceFindAllFuel fuel rest

def fontFaceFindAll (s : Str) : List Str :=
  fontFaceFindAllFuel s.length s

/-- One attempted match of `src_regex = src:\s*url\(([^)]*)\)` at the head of
`s`, returning the captured group. -/
def trySrcUrlAt (s : Str) : Option Str :=
  match expectLit litSrcColon s with
  | none => none
  | some s1 =>
    let s2 := s1.dropWhile isPySpace
    match expectLit litUrlOpen s2 with
    | none => none
    | some s3 =>
      let grp := s3.takeWhile (fun c => c ≠ ')')
      let s4 := s3.dropWhile (fun c => c ≠ ')')
      match expectLit [')'] s4 with
      | none => none
      | some _ => some grp

/-- `src_regex.search`: captured group of the leftmost match, if any. -/
def srcUrlSearchFuel : Nat → Str → Option Str
  | _, [] => none
  | 0, _ => none
  | fuel + 1, c :: rest =>
    match trySrcUrlAt (c :: rest) with
    | some grp => some grp
    | none => srcUrlSearchFuel fuel rest

def srcUrlSearch (s : Str) : Option Str :=
  srcUrlSearchFuel s.length s

/-- One attempted match of `font_family_regex = font-family:\s*([^;]*)` at the
head of `s`, returning the captured group (greedy up to the next `;` or the end
of the string). -/
def tryFamilyAt (s : Str) : Option Str :=
  match expectLit litFontFamilyColon s with
  | none => none
  | some s1 =>
    let s2 := s1.dropWhile isPySpace
    some (s2.takeWhile (fun c => c ≠ ';'))

/-- `font_family_regex.search`: captured group of the leftmost match, if any. -/
def fontFamilySearchFuel : Nat → Str → Option Str
  | _, [] => none
  | 0, _ => none
  | fuel + 1, c :: rest =>
    match tryFamilyAt (c :: rest) with
    | some grp => some grp
    | none => fontFamilySearchFuel fuel rest

def fontFamilySearch (s : Str) : Option Str :=
  fontFamilySearchFuel s.length s

/-- One attempted match of the `re.sub` pattern `src:\s*url\(([^)]*)\)\s*;`
(line 199 of the source) at the head of `s`, returning the remainder after the
match. -/
def trySrcClause (s : Str) : Option Str :=
  (expectLit litSrcColon s).bind fun s1 =>
  (expectLit litUrlOpen (s1.dropWhile isPySpace)).bind fun s3 =>
  (expectLit [')'] (s3.dropWhile (fun c => c ≠ ')'))).bind fun s5 =>
  expectLit [';'] (s5.dropWhile isPySpace)

/-- `re.sub` with the pattern above: scan left to right, substituting `rep` for
every match. -/
def subSrcFuel (rep : Str) : Nat → Str → Str
  | _, [] => []
  | 0, s => s
  | fuel + 1, c :: rest =>
    match trySrcClause (c :: rest) with
    | some rem => rep ++ subSrcFuel rep fuel rem
    | none => c :: subSrcFuel rep fuel rest

def subSrcClause (rep s : Str) : Str :=
  subSrcFuel rep s.length s

/-!
The `FontFace` record (dataclass `FontFace`, lines 82-146).  The
`cached_property` fields `src_url` and `font_family` are pure memoized
derivations of the immutable `font_face_definition`, so they are modelled as
plain functions of the record.
-/

structure FontFace where
  font_face_definition : Str
  font_file_name : Option Str := none
deriving DecidableEq

/-- `FontFace.src_url`: the first `src: url(...)` group, stripped of quotes and
spaces. -/
def srcUrlOf (face : FontFace) : Option Str :=
  (srcUrlSearch face.font_face_definition).map pyStrip

/-- `FontFace.font_family`: the first `font-family:` group, stripped of quotes
and spaces. -/
def fontFamilyOf (face : FontFace) : Option Str :=
  (fontFamilySearch face.font_face_definition).map pyStrip

/-- `FontFace.from_svg`: one record per `font_face_regex` match, in document
order. -/
def fontFacesFromSvg (svg : Str) : List FontFace :=
  (fontFaceFindAll svg).map (fun d => { font_face_definition := d })

/-- `pathlib.Path(url).name`, modelled as the last nonempty `/`-separated
segment of the URL (sufficient for the URL shapes the program handles). -/
def pathName (u : Str) : Str :=
  ((splitOnChar '/' u).filter (fun p => p ≠ [])).getLast? |>.getD []

/-!
The unicode unescaper `replace_escaped_unicode` (lines 203-216):
`re.sub(r"&#(\d+);", lambda g: chr(int(g.group(1))), svg_contents)`.
`chr` raises `ValueError` for values above `0x10FFFF`, modelled by `none`.
Lean's `Char` cannot carry lone surrogates (which Python strings allow);
`Char.ofNat` maps them to NUL.  No claim depends on a surrogate reference.
`\d` is modelled as ASCII digits.
-/

def digitsToNat (ds : Str) : Nat :=
  ds.foldl (fun acc c => acc * 10 + (c.toNat - '0'.toNat)) 0

/-- One attempted match of `&#(\d+);` at the head of `s`: on success returns
the decoded decimal value and the remainder after the match. -/
def tryRef (s : Str) : Option (Nat × Str) :=
  match expectLit ['&', '#'] s with
  | none => none
  | some s1 =>
    let ds := s1.takeWhile Char.isDigit
    let s2 := s1.dropWhile Char.isDigit
    if ds.isEmpty then none
    else match expectLit [';'] s2 with
      | none => none
      | some s3 => some (digitsToNat ds, s3)

def replEscFuel : Nat → Str → Option Str
  | _, [] => some []
  | 0, s => some s
  | fuel + 1, c :: rest =>
    match tryRef (c :: rest) with
    | some (n, rem) =>
      if n ≤ 0x10FFFF then (replEscFuel fuel rem).map (Char.ofNat n :: ·)
      else none
    | none => (replEscFuel fuel rest).map (c :: ·)

/-- `replace_escaped_unicode`; `none` models the `ValueError` that `chr`
raises on a code point above `0x10FFFF`. -/
def replaceEscapedUnicode (s : Str) : Option Str :=
  replEscFuel s.length s

/-- Whether any position of `s` starts a decimal numeric character reference. -/
def hasRef : Str → Bool
  | [] => false
  | c :: rest => (tryRef (c :: rest)).isSome || hasRef rest

/-- Whether every decimal numeric character reference in `s` denotes a value
in the Unicode code-point range (references start only at `&`, so checking
every position is equivalent to checking the scanner's matches). -/
def allRefsValid : Str → Bool
  | [] => true
  | c :: rest =>
    (match tryRef (c :: rest) with
     | some (n, _) => n ≤ 0x10FFFF
     | none => true) && allRefsValid rest

/-!
Interface model of the parsel document (`Selector`) as used by
`get_text_from_svg`: the constructs the program reads are `<text>` elements
(tag, attributes, directly contained text) and `<style>` elements (raw CSS
text).  Other markup is skipped by the scanner, as parsel ignores it for the
queries issued.
-/

inductive SvgItem where
  | textElem (attrs : List (Str × Str)) (content : Str) : SvgItem
  | styleElem (css : Str) : SvgItem
deriving DecidableEq

def isNameChar (c : Char) : Bool :=
  !(isPySpace c) && c ≠ '=' && c ≠ '>' && c ≠ '/' && c ≠ '\x22' && c ≠ '\x27'

/-- Parse `name="value"` / `name='value'` attribute pairs up to the closing
`>` of a start tag; returns the pairs and the remainder after `>`. -/
def parseAttrsFuel : Nat → Str → Option (List (Str × Str) × Str)
  | _, [] => none
  | 0, _ => none
  | fuel + 1, c :: rest =>
    if isPySpace c then parseAttrsFuel fuel rest
    else if c = '>' then some ([], rest)
    else
      let name := (c :: rest).takeWhile isNameChar
      let s1 := (c :: rest).dropWhile isNameChar
      if name.isEmpty then none
      else match expectLit ['='] s1 with
        | none => none
        | some s2 =>
          match s2 with
          | [] => none
          | q :: s3 =>
            if q = '\x22' || q = '\x27' then
              let v := s3.takeWhile (fun d => d ≠ q)
              let s4 := s3.dropWhile (fun d => d ≠ q)
              match expectLit [q] s4 with
              | none => none
              | some s5 =>
                match parseAttrsFuel fuel s5 with
                | none => none
                | some (attrs, rem) => some ((name, v) :: attrs, rem)
            else none

/-- Scan for a literal, returning the text before it and the remainder after
it. -/
def takeUntilLitFuel (lit : Str) : Nat → Str → Option (Str × Str)
  | _, [] => none
  | 0, _ => none
  | fuel + 1, c :: rest =>
    match expectLit lit (c :: rest) with
    | some rem => some ([], rem)
    | none =>
      match takeUntilLitFuel lit fuel rest with
      | none => none
      | some (before, rem) => some (c :: before, rem)

def litTextOpen : Str := "<text".toList
def litTextClose : Str := "</text>".toList
def litStyleOpen : Str := "<style".toList
def litStyleClose : Str := "</style>".toList

/-- One attempted parse of a `<text ...>...</text>` element at the head. -/
def tryTextElem (s : Str) : Option (SvgItem × Str) :=
  match expectLit litTextOpen s with
  | none => none
  | some s1 =>
    -- the tag name must end here (reject e.g. `<textPath`)
    match s1 with
    | [] => none
    | d :: _ =>
      if isPySpace d || d = '>' then
        match parseAttrsFuel s1.length s1 with
        | none => none
        | some (attrs, s2) =>
          match takeUntilLitFuel litTextClose s2.length s2 with
          | none => none
          | some (content, s3) => some (.textElem attrs content, s3)
      else none

/-- One attempted parse of a `<style ...>...</style>` element at the head. -/
def tryStyleElem (s : Str) : Option (SvgItem × Str) :=
  match expectLit litStyleOpen s with
  | none => none
  | some s1 =>
    match s1 with
    | [] => none
    | d :: _ =>
      if isPySpace d || d = '>' then
        match parseAttrsFuel s1.length s1 with
        | none => none
        | some (_, s2) =>
          match takeUntilLitFuel litStyleClose s2.length s2 with
          | none => none
          | some (css, s3) => some (.styleElem css, s3)
      else none

def parseDocFuel : Nat → Str → List SvgItem
  | _, [] => []
  | 0, _ => []
  | fuel + 1, c :: rest =>
    match tryTextElem (c :: rest) with
    | some (item, rem) => item :: parseDocFuel fuel rem
    | none =>
      match tryStyleElem (c :: rest) with
      | some (item, rem) => item :: parseDocFuel fuel rem
      | none => parseDocFuel fuel rest

/-- The parsel `Selector` document model. -/
def parseDoc (svg : Str) : List SvgItem :=
  parseDocFuel svg.length svg

def attrOf (attrs : List (Str × Str)) (name : Str) : Option Str :=
  (attrs.find? (fun p => p.1 = name)).map (·.2)

/-!
Interface model of tinycss (`make_parser().parse_stylesheet`) as used on the
inline `<style>` blocks: a flat sequence of rule sets
`selector { name: value; ... }`.  Unknown at-rules such as `@font-face` are
dropped with a logged parse error by tinycss's CSS21 parser, mirrored here by
skipping any block whose selector text starts with `@`.  (Nested blocks, which
neither tinycss CSS21 nor the regex extraction of the program support, are out
of scope.)
-/

structure CssRule where
  selector : Str
  decls : List (Str × Str)
deriving DecidableEq

/-- Split a declaration block body on `;` into `name: value` pairs (name and
value trimmed, as tinycss exposes them). -/
def parseDecls (body : Str) : List (Str × Str) :=
  (splitOnChar ';' body).filterMap (fun piece =>
    match splitOnChar ':' piece with
    | [] => none
    | [_] => none
    | nm :: rest => some (trimWs nm, trimWs ((rest.intersperse [':']).flatten)))

def parseCssFuel : Nat → Str → List CssRule
  | _, [] => []
  | 0, _ => []
  | fuel + 1, c :: rest =>
    if isPySpace c then parseCssFuel fuel rest
    else
      let sel := (c :: rest).takeWhile (fun d => d ≠ '\x7b')
      let s1 := (c :: rest).dropWhile (fun d => d ≠ '\x7b')
      match expectLit ['\x7b'] s1 with
      | none => []
      | some s2 =>
        let body := s2.takeWhile (fun d => d ≠ '\x7d')
        let s3 := s2.dropWhile (fun d => d ≠ '\x7d')
        match expectLit ['\x7d'] s3 with
        | none => []
        | some s4 =>
          let tl := parseCssFuel fuel s4
          if (trimWs sel).head? = some '@' then tl
          else { selector := trimWs sel, decls := parseDecls body } :: tl

def parseCss (css : Str) : List CssRule :=
  parseCssFuel css.length css

/-- Interface model of parsel CSS selection (`sel.css(selector_css)`) for the
selector shapes the inline stylesheets produce: a class selector `.name`
matches elements whose `class` attribute contains `name` as a
whitespace-separated word; a bare name matches elements with that tag (only
`text` elements carry text in the model). -/
def cssSelects (sel : Str) (item : SvgItem) : Bool :=
  match item with
  | .styleElem _ => false
  | .textElem attrs _ =>
    match trimWs sel with
    | [] => false
    | '.' :: clsName =>
      match attrOf attrs ("class".toList) with
      | none => false
      | some v => ((splitOnChar ' ' v).filter (fun p => p ≠ [])).contains clsName
    | tagName => tagName = "text".toList

def contentOf (item : SvgItem) : List Str :=
  match item with
  | .textElem _ content => [content]
  | .styleElem _ => []

def styleTexts (doc : List SvgItem) : List Str :=
  doc.filterMap (fun item =>
    match item with
    | .styleElem css => some css
    | .textElem _ _ => none)

/-- `get_text_from_svg` (lines 35-79). -/
def getTextFromSvg (svg : Str) (family : Option Str) : List Str :=
  let doc := parseDoc svg
  let allText := doc.flatMap contentOf
  match family with
  | none => allText
  | some fam =>
    -- Python `if family:`: an empty family name is falsy
    if fam.isEmpty then allText
    else
      -- text elements whose font-family attribute contains the family
      -- (XPath `contains(@font-family, family)`)
      let fontText := doc.flatMap (fun item =>
        match item with
        | .textElem attrs content =>
          match attrOf attrs litFontFamilyAttr with
          | some v => if isSubstring fam v then [content] else []
          | none => []
        | .styleElem _ => [])
      -- CSS rules in inline style blocks whose font-family declaration
      -- mentions the family; collect text under the rule's selector
      let cssText := (styleTexts doc).flatMap (fun css =>
        (parseCss css).flatMap (fun rule =>
          (rule.decls.filter (fun d =>
            d.1 = litFontFamilyAttr &&
            ((splitOnChar ',' d.2).any (fun entry => isSubstring fam entry)))).flatMap
            (fun _ => (doc.filter (cssSelects rule.selector)).flatMap contentOf)))
      fontText ++ cssText

/-- The usage set of one font family in the markup: all collected text joined
and de-duplicated (`set("".join(text))`, line 253). -/
def usageChars (svg : Str) (family : Option Str) : Str :=
  dedupChars ((getTextFromSvg svg family).flatten)

/-!
The per-record fetch (`FontFace.get_font_contents`, lines 123-146).  The method
is decorated with `@lru_cache(maxsize=1)` on an `async def`: the cache stores
the *coroutine object* produced by the first call, and every call site awaits
the returned coroutine immediately.  A call-and-await is therefore modelled as
one step; after the first step the cached coroutine has been consumed, and
awaiting it again raises `RuntimeError` ("cannot reuse already awaited
coroutine").  The network GET is an oracle `Net`; an `Except.error` models an
exception from `httpx` or from `raise_for_status`.
-/

/-- Network GET oracle: URL to body bytes, or a transport/HTTP-status error. -/
abbrev Net := Str → Except Unit (List Nat)

/-- HEAD oracle: URL to the optional `content-length` header text, or a
transport error. -/
abbrev HeadOracle := Str → Except Unit (Option Str)

structure RecordState where
  face : FontFace
  /-- the `lru_cache` slot holds the (already awaited) coroutine after the
  first call -/
  coroCached : Bool
  /-- number of network GETs issued for this record -/
  fetchCount : Nat
deriving DecidableEq

def initRecord (d : Str) : RecordState :=
  { face := { font_face_definition := d }, coroCached := false, fetchCount := 0 }

inductive FetchOutcome where
  /-- the coroutine completed, returning `bytes` or `None` -/
  | ok (b : Option (List Nat)) : FetchOutcome
  /-- the GET or `raise_for_status` raised -/
  | httpError : FetchOutcome
  /-- `RuntimeError`: the cached coroutine was already awaited -/
  | reuseError : FetchOutcome
deriving DecidableEq

/-- One `await record.get_font_contents()` step. -/
def callGetFontContents (net : Net) (st : RecordState) : RecordState × FetchOutcome :=
  if st.coroCached then (st, .reuseError)
  else
    match srcUrlOf st.face with
    | none =>
      -- no src url: warn and return None (no mutation of font_file_name)
      ({ st with coroCached := true }, .ok none)
    | some u =>
      -- `self.font_file_name = Path(self.src_url).name` happens before the GET
      let face' := { st.face with font_file_name := some (pathName u) }
      match net u with
      | .error _ => ({ face := face', coroCached := true, fetchCount := st.fetchCount + 1 }, .httpError)
      | .ok b => ({ face := face', coroCached := true, fetchCount := st.fetchCount + 1 }, .ok (some b))

/-- Iterate `n` call-and-await steps on one record. -/
def iterateCalls (net : Net) : Nat → RecordState → RecordState
  | 0, st => st
  | n + 1, st => iterateCalls net n (callGetFontContents net st).1

/-- The result of the single call `embed_fonts` makes per record (through
`get_font_subset_definition`): the body of `get_font_contents` run on a fresh
record. -/
def fetchBody (net : Net) (face : FontFace) : Except Unit (Option (List Nat)) :=
  match srcUrlOf face with
  | none => .ok none
  | some u =>
    match net u with
    | .error _ => .error ()
    | .ok b => .ok (some b)

/-!
Base64 encoding (`base64.b64encode`), standard alphabet with `=` padding.
-/

def b64Alphabet : Str :=
  "ABCDEFGHIJKLMNOPQRSTUVWXYZabcdefghijklmnopqrstuvwxyz0123456789+/".toList

def b64Char (n : Nat) : Char := b64Alphabet.getD n 'A'

def base64Encode : List Nat → Str
  | [] => []
  | [a] =>
    let a := a % 256
    [b64Char (a / 4), b64Char (a % 4 * 16), '=', '=']
  | [a, b] =>
    let a := a % 256
    let b := b % 256
    [b64Char (a / 4), b64Char (a % 4 * 16 + b / 16), b64Char (b % 16 * 4), '=']
  | a :: b :: c :: rest =>
    let a := a % 256
    let b := b % 256
    let c := c % 256
    b64Char (a / 4) :: b64Char (a % 4 * 16 + b / 16) ::
      b64Char (b % 16 * 4 + c / 64) :: b64Char (c % 64) :: base64Encode rest

/-!
The subset build (`get_font_subset_definition`, lines 154-200) and the
orchestrator (`embed_fonts`, lines 224-283).  The fontTools subsetting engine
is the opaque capability the spec describes: bytes and a character sequence in,
subsetted bytes out; the scratch directory, scratch file names and engine-side
logging have no effect on the returned value and are abstracted away.  Engine
failures (which the source lets propagate) are outside every claim and are not
modelled.  Log lines are modelled as coarse events; lines logged inside
library calls are attributed to the step that makes the call.
-/

/-- Opaque subsetting engine: font bytes and the characters to keep. -/
abbrev Engine := List Nat → Str → List Nat

inductive PyExc where
  | httpError : PyExc
  | valueError : PyExc
deriving DecidableEq

inductive LogMsg where
  | noFonts | foundFonts | usesChars | dropUnused | keepUnused
  | saved | sizeWarn | processing | skipNoFont | subsetSuccess
deriving DecidableEq

/-- The replacement `src` line built at line 198:
`src: url('data:font/woff2;base64,<payload>') format('woff2');`. -/
def embeddedSrcLine (payload : Str) : Str :=
  "src: url(\x27data:font/woff2;base64,".toList ++ payload ++
    "\x27) format(\x27woff2\x27);".toList

/-- `get_font_subset_definition`: `None` (modelled `Option.none`) when the
fetched content is empty or absent; otherwise the declaration with every
`src: url(...);` clause replaced by the embedded data URI, paired with the
original (pre-subset) byte size (`write_bytes` returns `len(font_contents)`). -/
def getFontSubsetDefinition (net : Net) (engine : Engine) (face : FontFace)
    (chars : Str) : Except PyExc (Option (Str × Nat)) :=
  match fetchBody net face with
  | .error _ => .error .httpError
  | .ok none => .ok none
  | .ok (some b) =>
    if b.isEmpty then .ok none
    else
      let subsetted := engine b chars
      let encoded := base64Encode subsetted
      .ok (some (subSrcClause (embeddedSrcLine encoded) face.font_face_definition, b.length))

/-- Python `int(str)` on header text: optional surrounding whitespace, optional
sign, at least one ASCII digit; anything else raises `ValueError` (Unicode
digits and underscore separators are out of scope of the model). -/
def parsePyInt (s : Str) : Option Int :=
  let t := trimWs s
  match t with
  | '+' :: ds => if !ds.isEmpty && ds.all Char.isDigit then some (Int.ofNat (digitsToNat ds)) else none
  | '-' :: ds => if !ds.isEmpty && ds.all Char.isDigit then some (-(Int.ofNat (digitsToNat ds))) else none
  | ds => if !ds.isEmpty && ds.all Char.isDigit then some (Int.ofNat (digitsToNat ds)) else none

/-- The body of the `try:` block at lines 264-269, given the HEAD outcome for
the record's URL: `int(req.headers.get("content-length", 0))` (absent header
defaults to the integer 0). -/
def sizeBranchBody (h : Except Unit (Option Str)) : Except PyExc Int :=
  match h with
  | .error _ => .error .httpError
  | .ok none => .ok 0
  | .ok (some v) =>
    match parsePyInt v with
    | none => .error .valueError
    | some n => .ok n

/-- The `try`/`except (httpx.HTTPError, ValueError, TypeError)` at lines
263-271: every exception the body can raise is in the caught tuple, so the
branch always completes, contributing the parsed size or zero. -/
def sizeBranch (h : Except Unit (Option Str)) : Int × List LogMsg :=
  match sizeBranchBody h with
  | .ok n => (n, [.saved])
  | .error _ => (0, [.sizeWarn])

/-- Size-and-log contribution of dropping one unused record (lines 263-271):
no HEAD request is issued when the record has no src URL. -/
def dropSize (hd : HeadOracle) (face : FontFace) : Int × List LogMsg :=
  match srcUrlOf face with
  | none => (0, [])
  | some u => sizeBranch (hd u)

structure RemAcc where
  svg : Str
  total : Int
  log : List LogMsg
  toProcess : List (FontFace × Str)
deriving DecidableEq

/-- The first loop of `embed_fonts` (lines 251-273): compute usage against the
current (already partially rewritten) markup, queue used faces, and drop or
keep unused ones. -/
def removalLoop (hd : HeadOracle) (keep : Bool) : List FontFace → RemAcc → RemAcc
  | [], acc => acc
  | face :: rest, acc =>
    let chars := usageChars acc.svg (fontFamilyOf face)
    if !chars.isEmpty then
      removalLoop hd keep rest
        { acc with log := acc.log ++ [.usesChars],
                   toProcess := acc.toProcess ++ [(face, chars)] }
    else if keep then
      removalLoop hd keep rest { acc with log := acc.log ++ [.keepUnused] }
    else
      let d := dropSize hd face
      removalLoop hd keep rest
        { acc with svg := pyReplace acc.svg face.font_face_definition [],
                   total := acc.total + d.1,
                   log := acc.log ++ [.dropUnused] ++ d.2 }

structure EmbedOutcome where
  svg : Str
  total : Int
  log : List LogMsg
deriving DecidableEq

/-- The second loop of `embed_fonts` (lines 276-282): subset each queued face
and splice the rewritten declaration in; a `None` subset result skips the
record; exceptions propagate. -/
def processLoop (net : Net) (engine : Engine) :
    List (FontFace × Str) → EmbedOutcome → Except PyExc EmbedOutcome
  | [], acc => .ok acc
  | (face, chars) :: rest, acc =>
    match getFontSubsetDefinition net engine face chars with
    | .error e => .error e
    | .ok none => processLoop net engine rest { acc with log := acc.log ++ [.skipNoFont] }
    | .ok (some (newDef, sz)) =>
      processLoop net engine rest
        { acc with svg := pyReplace acc.svg face.font_face_definition newDef,
                   total := acc.total + sz,
                   log := acc.log ++ [.subsetSuccess] }

/-- `embed_fonts` (lines 224-283). -/
def embedFonts (net : Net) (engine : Engine) (hd : HeadOracle) (svg : Str)
    (keep : Bool) : Except PyExc EmbedOutcome :=
  let faces := fontFacesFromSvg svg
  let log0 : List LogMsg := if faces.isEmpty then [.noFonts] else [.foundFonts]
  let acc := removalLoop hd keep faces { svg := svg, total := 0, log := log0, toProcess := [] }
  processLoop net engine acc.toProcess
    { svg := acc.svg, total := acc.total, log := acc.log ++ [.processing] }

/-!
Shared concrete artefacts for theorems and witnesses.
-/

def faceWithSrc : Str := "@font-face \x7b src: url(http://x/f.woff2); \x7d".toList

def netBytes : Net := fun _ => .ok [7, 8]

def netNone : Net := fun _ => .error ()

def engineId : Engine := fun b _ => b

def hdNone : HeadOracle := fun _ => .error ()

def exceptOk {ε α : Type} : Except ε α → Bool
  | .ok _ => true
  | .error _ => false

/-!
Helper lemmas.
-/

theorem callGetFontContents_cached (net : Net) (st : RecordState)
    (h : st.coroCached = true) : callGetFontContents net st = (st, .reuseError) := by
  simp [callGetFontContents, h]

theorem callGetFontContents_init (net : Net) (d : Str) :
    (callGetFontContents net (initRecord d)).1.coroCached = true ∧
      (callGetFontContents net (initRecord d)).1.fetchCount ≤ 1 := by
  unfold callGetFontContents initRecord
  cases h : srcUrlOf { font_face_definition := d } with
  | none => simp [h]
  | some u => cases hn : net u with
    | error e => simp [h, hn]
    | ok b => simp [h, hn]

theorem iterateCalls_cached (net : Net) (n : Nat) (st : RecordState)
    (h : st.coroCached = true) : iterateCalls net n st = st := by
  induction n with
  | zero => rfl
  | succ n ih => rw [iterateCalls, callGetFontContents_cached net st h, ih]

theorem iterateCalls_count (net : Net) (d : Str) (n : Nat) :
    (iterateCalls net n (initRecord d)).fetchCount ≤ 1 := by
  cases n with
  | zero => exact Nat.zero_le 1
  | succ n =>
    rw [iterateCalls,
      iterateCalls_cached net n _ (callGetFontContents_init net d).1]
    exact (callGetFontContents_init net d).2

/-- Claim C1: the claim states that after the first call every subsequent
`get_font_contents` request on the same record returns the cached bytes.  On
the code, `@lru_cache` wraps an `async def` and caches the coroutine object:
the first call-and-await returns the fetched bytes, but a second call returns
the same, already awaited, coroutine and awaiting it raises `RuntimeError`
instead of returning the cached bytes.  The at-most-one-fetch half of the
claim does hold: any number of calls issues at most one network GET. -/
theorem fontface_second_call_raises :
    (callGetFontContents netBytes (initRecord faceWithSrc)).2 = .ok (some [7, 8]) ∧
    (callGetFontContents netBytes
      (callGetFontContents netBytes (initRecord faceWithSrc)).1).2 = .reuseError ∧
    ∀ (net : Net) (d : Str) (n : Nat),
      (iterateCalls net n (initRecord d)).fetchCount ≤ 1 := by
  refine ⟨by decide, by decide, ?_⟩
  intro net d n
  exact iterateCalls_count net d n

/-- Claim C9 counterexample: the claim states that a fetch that fails leaves
the record as it was.  On the code, `self.font_file_name = Path(self.src_url).name`
runs before the GET, so a record whose fetch raises an HTTP error still has its
`font_file_name` mutated from `None` to the URL's final path segment. -/
theorem fetch_failure_mutates_record_counterexample :
    (callGetFontContents netNone (initRecord faceWithSrc)).2 = .httpError ∧
    (initRecord faceWithSrc).face.font_file_name = none ∧
    (callGetFontContents netNone (initRecord faceWithSrc)).1.face.font_file_name =
      some ("f.woff2".toList) := by
  decide

/-- Claim C9 (amended): `font_file_name` is mutated as a byproduct of the first
fetch attempt whenever a src URL is present — successful or not — and is left
unchanged when the record has no src URL; apart from `font_file_name` and the
cached(-coroutine) slot no field is mutated (`font_face_definition` is
untouched), and calls after the first mutate nothing further. -/
theorem record_mutation_frame (net : Net) (d : Str) :
    ((callGetFontContents net (initRecord d)).1.face.font_face_definition = d) ∧
    ((callGetFontContents net (initRecord d)).1.face.font_file_name =
      (srcUrlOf { font_face_definition := d }).map pathName) ∧
    ((callGetFontContents net (callGetFontContents net (initRecord d)).1).1 =
      (callGetFontContents net (initRecord d)).1) := by
  refine ⟨?_, ?_, ?_⟩ <;>
  · unfold callGetFontContents initRecord
    cases h : srcUrlOf { font_face_definition := d } with
    | none => simp [h, callGetFontContents]
    | some u => cases hn : net u with
      | error e => simp [h, hn, callGetFontContents]
      | ok b => simp [h, hn, callGetFontContents]

/-- Claim C4: markup with zero font-face declarations is returned unchanged,
with a total fonts size of zero, and the no-fonts warning is logged. -/
theorem embed_fonts_no_fonts_identity (net : Net) (engine : Engine)
    (hd : HeadOracle) (svg : Str) (keep : Bool)
    (h : fontFaceFindAll svg = []) :
    embedFonts net engine hd svg keep =
      .ok { svg := svg, total := 0, log := [.noFonts, .processing] } := by
  unfold embedFonts fontFacesFromSvg
  rw [h]
  simp [removalLoop, processLoop]

def svgNoFonts : Str := "<svg><text>Hi</text></svg>".toList

theorem embed_fonts_no_fonts_identity_witness :
    fontFaceFindAll svgNoFonts = [] ∧
    embedFonts netNone engineId hdNone svgNoFonts false =
      .ok { svg := svgNoFonts, total := 0, log := [.noFonts, .processing] } :=
  ⟨by decide, embed_fonts_no_fonts_identity netNone engineId hdNone svgNoFonts false (by decide)⟩

/-- Claim C6: a record whose fetch yields no content (`None` from a missing
src URL) or empty bytes produces `None` from `get_font_subset_definition`
rather than an exception, and the orchestrator's processing step for it leaves
the markup and the size ledger exactly as they were. -/
theorem fetch_empty_skips_record (net : Net) (engine : Engine) (face : FontFace)
    (chars : Str) (rest : List (FontFace × Str)) (acc : EmbedOutcome)
    (h : fetchBody net face = .ok none ∨ fetchBody net face = .ok (some [])) :
    getFontSubsetDefinition net engine face chars = .ok none ∧
    processLoop net engine ((face, chars) :: rest) acc =
      processLoop net engine rest { acc with log := acc.log ++ [.skipNoFont] } := by
  have h1 : getFontSubsetDefinition net engine face chars = .ok none := by
    rcases h with h | h <;> simp [getFontSubsetDefinition, h]
  exact ⟨h1, by simp [processLoop, h1]⟩

def faceNoSrc : FontFace := { font_face_definition := "@font-face \x7bx\x7d".toList }

theorem fetch_empty_skips_record_witness :
    getFontSubsetDefinition netBytes engineId faceNoSrc ("AB".toList) = .ok none ∧
    processLoop netBytes engineId [(faceNoSrc, "AB".toList)]
        { svg := faceNoSrc.font_face_definition, total := 0, log := [] } =
      .ok { svg := faceNoSrc.font_face_definition, total := 0, log := [.skipNoFont] } := by
  have h := fetch_empty_skips_record netBytes engineId faceNoSrc ("AB".toList) []
    { svg := faceNoSrc.font_face_definition, total := 0, log := [] }
    (Or.inl (by decide))
  exact ⟨h.1, by rw [h.2]; rfl⟩

/-- Claim C3 counterexample: the claim states that with retention disabled the
declaration text of an empty-usage font-face is absent from the output markup.
`str.replace(decl, "")` removes all occurrences, but deleting an occurrence can
join the surrounding text into a fresh occurrence: for the markup below the
single extracted declaration `@font-face \x7bx\x7d` has empty usage and
retention is disabled, yet the output markup is exactly that declaration
text. -/
theorem unused_font_removal_junction_counterexample :
    fontFacesFromSvg ("@font-f@font-face \x7bx\x7dace \x7bx\x7d".toList) =
      [{ font_face_definition := "@font-face \x7bx\x7d".toList }] ∧
    usageChars ("@font-f@font-face \x7bx\x7dace \x7bx\x7d".toList)
      (fontFamilyOf { font_face_definition := "@font-face \x7bx\x7d".toList }) = [] ∧
    embedFonts netNone engineId hdNone
        ("@font-f@font-face \x7bx\x7dace \x7bx\x7d".toList) false =
      .ok { svg := "@font-face \x7bx\x7d".toList, total := 0,
            log := [.foundFonts, .dropUnused, .processing] } ∧
    (embedFonts netNone engineId hdNone
        ("@font-f@font-face \x7bx\x7dace \x7bx\x7d".toList) false).map
      (fun r => isSubstring ("@font-face \x7bx\x7d".toList) r.svg) = .ok true := by
  refine ⟨by decide, by decide, by decide, by decide⟩

/-- Claim C3 (amended): for a font-face record with empty computed usage, the
orchestrator's step for that record removes every occurrence of its declaration
text from the current markup in one replace-all pass when retention is disabled
(the text can still appear in the output only if deletion junctions or a later
record's edit recreate it), and leaves the markup byte-identical when retention
is enabled (so the declaration stays present unless a later record's splice
rewrites overlapping text). -/
theorem unused_font_step_behavior (hd : HeadOracle) (face : FontFace)
    (rest : List FontFace) (acc : RemAcc)
    (h : usageChars acc.svg (fontFamilyOf face) = []) :
    removalLoop hd true (face :: rest) acc =
      removalLoop hd true rest { acc with log := acc.log ++ [.keepUnused] } ∧
    removalLoop hd false (face :: rest) acc =
      removalLoop hd false rest
        { acc with svg := pyReplace acc.svg face.font_face_definition [],
                   total := acc.total + (dropSize hd face).1,
                   log := acc.log ++ [.dropUnused] ++ (dropSize hd face).2 } := by
  constructor <;> simp [removalLoop, h]

theorem unused_font_step_behavior_witness :
    usageChars [] (fontFamilyOf faceNoSrc) = [] ∧
    removalLoop hdNone true [faceNoSrc] { svg := [], total := 0, log := [], toProcess := [] } =
      { svg := [], total := 0, log := [.keepUnused], toProcess := [] } ∧
    removalLoop hdNone false [faceNoSrc] { svg := [], total := 0, log := [], toProcess := [] } =
      { svg := pyReplace [] faceNoSrc.font_face_definition [], total := 0,
        log := [.dropUnused], toProcess := [] } := by
  have h := unused_font_step_behavior hdNone faceNoSrc []
    { svg := [], total := 0, log := [], toProcess := [] } (by decide)
  refine ⟨by decide, ?_, ?_⟩
  · rw [h.1]; rfl
  · rw [h.2]; rfl

def svgDirectAttr : Str :=
  ("<svg><style>@font-face \x7b font-family: Fam; src: url(http://x/f.woff2); \x7d" ++
   "</style><text font-family=\x22Fam\x22>AB</text></svg>").toList

def svgClassSel : Str :=
  ("<svg><style>@font-face \x7b font-family: Fam; src: url(http://x/f.woff2); \x7d" ++
   " .cls \x7b font-family: Fam; \x7d</style><text class=\x22cls\x22>AB</text></svg>").toList

/-- Claim C2: for a font-face whose family name is given (here `Fam`) and is
referenced by exactly one text element with characters `AB`, the usage analyzer
(`get_text_from_svg` plus de-duplication) yields the set containing exactly `A`
and `B`, both when the element names the family in a direct `font-family`
attribute and when it references it through a CSS class selector whose rule
declares that family. -/
theorem usage_analyzer_ab_both_idioms :
    ((fontFacesFromSvg svgDirectAttr).map fontFamilyOf = [some ("Fam".toList)]) ∧
    ((fontFacesFromSvg svgClassSel).map fontFamilyOf = [some ("Fam".toList)]) ∧
    (getTextFromSvg svgDirectAttr (some ("Fam".toList)) = ["AB".toList]) ∧
    (getTextFromSvg svgClassSel (some ("Fam".toList)) = ["AB".toList]) ∧
    ((usageChars svgDirectAttr (some ("Fam".toList))).toFinset = {'A', 'B'}) ∧
    ((usageChars svgClassSel (some ("Fam".toList))).toFinset = {'A', 'B'}) := by
  refine ⟨by decide, by decide, by decide, by decide, by decide, by decide⟩

theorem replEsc_cons_none (c : Char) (rest : Str) (h : tryRef (c :: rest) = none) :
    replaceEscapedUnicode (c :: rest) = (replaceEscapedUnicode rest).map (c :: ·) := by
  show replEscFuel (c :: rest).length (c :: rest) = _
  simp only [List.length_cons, replEscFuel, h]
  rfl

theorem replEsc_id (s : Str) (h : hasRef s = false) :
    replaceEscapedUnicode s = some s := by
  induction s with
  | nil => rfl
  | cons c rest ih =>
    rw [hasRef, Bool.or_eq_false_iff] at h
    have hn : tryRef (c :: rest) = none :=
      Option.not_isSome_iff_eq_none.mp (by simp [h.1])
    rw [replEsc_cons_none c rest hn, ih h.2]
    rfl

/-- Claim C7 counterexample: the claim states that `replace_escaped_unicode`
is idempotent on every input.  Decoding `&#38;` yields `&`, which joins with
the following text `#38;` to form a new reference, so on `&#38;#38;` a second
application differs from the first. -/
theorem unescape_not_idempotent_counterexample :
    replaceEscapedUnicode ("&#38;#38;".toList) = some ("&#38;".toList) ∧
    (replaceEscapedUnicode ("&#38;#38;".toList)).bind replaceEscapedUnicode =
      some ("&".toList) ∧
    (replaceEscapedUnicode ("&#38;#38;".toList)).bind replaceEscapedUnicode ≠
      replaceEscapedUnicode ("&#38;#38;".toList) := by
  refine ⟨by decide, by decide, by decide⟩

/-- Claim C7 (amended): `replace_escaped_unicode` is the identity — and hence
idempotent — on every input free of decimal numeric character references; on
general input a decoded character can join with the following text into a new
reference, so a second application may decode further. -/
theorem unescape_idempotent_on_ref_free (s : Str) (h : hasRef s = false) :
    replaceEscapedUnicode s = some s ∧
    (replaceEscapedUnicode s).bind replaceEscapedUnicode = replaceEscapedUnicode s := by
  have h1 := replEsc_id s h
  refine ⟨h1, ?_⟩
  rw [h1, Option.some_bind, h1]

theorem unescape_idempotent_on_ref_free_witness :
    hasRef ("hello <text/>".toList) = false ∧
    replaceEscapedUnicode ("hello <text/>".toList) = some ("hello <text/>".toList) ∧
    (replaceEscapedUnicode ("hello <text/>".toList)).bind replaceEscapedUnicode =
      replaceEscapedUnicode ("hello <text/>".toList) :=
  ⟨by decide, (unescape_idempotent_on_ref_free ("hello <text/>".toList) (by decide)).1,
    (unescape_idempotent_on_ref_free ("hello <text/>".toList) (by decide)).2⟩

theorem expectLit_some_length (lit : Str) :
    ∀ (s r : Str), expectLit lit s = some r → r.length + lit.length = s.length := by
  induction lit with
  | nil => intro s r h; cases h; simp
  | cons l ls ih =>
    intro s r h
    cases s with
    | nil => cases h
    | cons c cs =>
      rw [expectLit] at h
      by_cases hc : c = l
      · simp only [hc, if_pos rfl] at h
        have := ih cs r h
        simp only [List.length_cons]
        omega
      · simp [hc] at h

theorem expectLit_suffix (lit : Str) :
    ∀ (s r : Str), expectLit lit s = some r → r <:+ s := by
  induction lit with
  | nil => intro s r h; cases h; exact List.suffix_refl s
  | cons l ls ih =>
    intro s r h
    cases s with
    | nil => cases h
    | cons c cs =>
      rw [expectLit] at h
      by_cases hc : c = l
      · simp only [hc, if_pos rfl] at h
        exact (ih cs r h).trans (List.suffix_cons c cs)
      · simp [hc] at h

theorem tryRef_suffix (s : Str) (n : Nat) (rem : Str)
    (h : tryRef s = some (n, rem)) : rem <:+ s ∧ rem.length < s.length := by
  rw [tryRef] at h
  cases h1 : expectLit ['&', '#'] s with
  | none => rw [h1] at h; cases h
  | some s1 =>
    rw [h1] at h
    by_cases hd : (s1.takeWhile Char.isDigit).isEmpty
    · simp [hd] at h
    · simp only [hd, if_neg, Bool.false_eq_true, not_false_eq_true, if_false] at h
      cases h2 : expectLit [';'] (s1.dropWhile Char.isDigit) with
      | none => rw [h2] at h; cases h
      | some s3 =>
        rw [h2] at h
        cases h
        have e1 := expectLit_some_length _ s s1 h1
        have e2 := expectLit_some_length _ _ rem h2
        have l1 : (s1.dropWhile Char.isDigit).length ≤ s1.length :=
          (List.dropWhile_suffix _).length_le
        have sx : rem <:+ s :=
          ((expectLit_suffix _ _ rem h2).trans (List.dropWhile_suffix _)).trans
            (expectLit_suffix _ s s1 h1)
        refine ⟨sx, ?_⟩
        simp only [List.length_cons, List.length_nil] at e1 e2
        omega

theorem allRefsValid_tail (c : Char) (rest : Str)
    (h : allRefsValid (c :: rest) = true) : allRefsValid rest = true := by
  rw [allRefsValid, Bool.and_eq_true] at h
  exact h.2

theorem allRefsValid_append (t rem : Str)
    (h : allRefsValid (t ++ rem) = true) : allRefsValid rem = true := by
  induction t with
  | nil => exact h
  | cons x xs ih => exact ih (allRefsValid_tail _ _ h)

theorem allRefsValid_of_suffix (rem s : Str) (hx : rem <:+ s)
    (h : allRefsValid s = true) : allRefsValid rem = true := by
  obtain ⟨t, ht⟩ := hx
  subst ht
  exact allRefsValid_append t rem h

theorem replEscFuel_irrel :
    ∀ (f1 : Nat) (s : Str) (f2 : Nat), s.length ≤ f1 → s.length ≤ f2 →
      replEscFuel f1 s = replEscFuel f2 s := by
  intro f1
  induction f1 with
  | zero =>
    intro s f2 h1 _
    have : s = [] := List.eq_nil_of_length_eq_zero (Nat.le_zero.mp h1)
    subst this
    cases f2 <;> rfl
  | succ f ih =>
    intro s f2 h1 h2
    cases s with
    | nil => cases f2 <;> rfl
    | cons c rest =>
      cases f2 with
      | zero => simp at h2
      | succ g =>
        cases h : tryRef (c :: rest) with
        | none =>
          have hr : rest.length ≤ f := by simp at h1; omega
          have hg : rest.length ≤ g := by simp at h2; omega
          simp only [replEscFuel, h]
          rw [ih rest g hr hg]
        | some p =>
          obtain ⟨n, rem⟩ := p
          have hl := (tryRef_suffix _ n rem h).2
          have hr : rem.length ≤ f := by simp at h1 hl; omega
          have hg : rem.length ≤ g := by simp at h2 hl; omega
          simp only [replEscFuel, h]
          rw [ih rem g hr hg]

theorem replEsc_cons_some (c : Char) (rest : Str) (n : Nat) (rem : Str)
    (h : tryRef (c :: rest) = some (n, rem)) :
    replaceEscapedUnicode (c :: rest) =
      if n ≤ 0x10FFFF then (replaceEscapedUnicode rem).map (Char.ofNat n :: ·)
      else none := by
  have hl := (tryRef_suffix _ n rem h).2
  show replEscFuel (c :: rest).length (c :: rest) = _
  simp only [List.length_cons, replEscFuel, h]
  rw [replEscFuel_irrel rest.length rem rem.length (by simp at hl; omega) (Nat.le_refl _)]
  rfl

theorem replEsc_total_aux :
    ∀ (k : Nat) (s : Str), s.length ≤ k → allRefsValid s = true →
      (replaceEscapedUnicode s).isSome = true := by
  intro k
  induction k with
  | zero =>
    intro s h1 _
    have : s = [] := List.eq_nil_of_length_eq_zero (Nat.le_zero.mp h1)
    subst this; rfl
  | succ k ih =>
    intro s h1 hv
    cases s with
    | nil => rfl
    | cons c rest =>
      cases h : tryRef (c :: rest) with
      | none =>
        rw [replEsc_cons_none c rest h]
        have := ih rest (by simp at h1; omega) (allRefsValid_tail _ _ hv)
        obtain ⟨t, ht⟩ := Option.isSome_iff_exists.mp this
        rw [ht]; rfl
      | some p =>
        obtain ⟨n, rem⟩ := p
        have hn : n ≤ 0x10FFFF := by
          rw [allRefsValid, h, Bool.and_eq_true] at hv
          exact of_decide_eq_true hv.1
        rw [replEsc_cons_some c rest n rem h, if_pos hn]
        obtain ⟨sx, hl⟩ := tryRef_suffix _ n rem h
        have := ih rem (by simp at h1 hl; omega)
          (allRefsValid_of_suffix rem (c :: rest) sx hv)
        obtain ⟨t, ht⟩ := Option.isSome_iff_exists.mp this
        rw [ht]; rfl

/-- Claim C10: `replace_escaped_unicode` is not total: a decimal reference
whose value exceeds the maximum Unicode code point (`&#1114112;`, i.e.
`0x110000`) makes `chr` raise, modelled as `none`; and it returns normally on
every input whose decimal references all denote values in the code-point
range. -/
theorem unescape_totality_boundary :
    replaceEscapedUnicode ("&#1114112;".toList) = none ∧
    ∀ s : Str, allRefsValid s = true → (replaceEscapedUnicode s).isSome = true := by
  refine ⟨by decide, ?_⟩
  intro s hv
  exact replEsc_total_aux s.length s (Nat.le_refl _) hv

theorem unescape_totality_boundary_witness :
    allRefsValid ("a&#65;b &#1114111;".toList) = true ∧
    (replaceEscapedUnicode ("a&#65;b &#1114111;".toList)).isSome = true :=
  ⟨by decide, unescape_totality_boundary.2 ("a&#65;b &#1114111;".toList) (by decide)⟩

theorem removalLoop_hd_eq (keep : Bool) (faces : List FontFace) :
    ∀ (hd1 hd2 : HeadOracle) (a1 a2 : RemAcc),
      a1.svg = a2.svg → a1.toProcess = a2.toProcess →
      (removalLoop hd1 keep faces a1).svg = (removalLoop hd2 keep faces a2).svg ∧
      (removalLoop hd1 keep faces a1).toProcess =
        (removalLoop hd2 keep faces a2).toProcess := by
  induction faces with
  | nil => intro hd1 hd2 a1 a2 hs ht; exact ⟨hs, ht⟩
  | cons face rest ih =>
    intro hd1 hd2 a1 a2 hs ht
    simp only [removalLoop, hs, ht]
    by_cases hc : (usageChars a2.svg (fontFamilyOf face)).isEmpty
    · simp only [hc, Bool.not_true]
      cases keep with
      | false =>
        simp only [Bool.false_eq_true, if_false]
        exact ih hd1 hd2 _ _ (by simp) (by simp)
      | true =>
        simp only [if_true]
        exact ih hd1 hd2 _ _ (by simp [hs]) (by simp [ht])
    · simp only [hc, Bool.not_false]
      exact ih hd1 hd2 _ _ (by simp [hs]) (by simp [ht])

theorem processLoop_exceptOk (net : Net) (engine : Engine)
    (tp : List (FontFace × Str)) :
    ∀ (a1 a2 : EmbedOutcome),
      exceptOk (processLoop net engine tp a1) =
        exceptOk (processLoop net engine tp a2) := by
  induction tp with
  | nil => intro a1 a2; rfl
  | cons fc rest ih =>
    obtain ⟨face, chars⟩ := fc
    intro a1 a2
    cases h : getFontSubsetDefinition net engine face chars with
    | error e => simp only [processLoop, h]
    | ok o =>
      cases o with
      | none => simp only [processLoop, h]; exact ih _ _
      | some p =>
        obtain ⟨nd, sz⟩ := p
        simp only [processLoop, h]
        exact ih _ _

/-- Claim C8: the remote-size estimation for a dropped unused font defaults to
zero when the `content-length` header is absent; a transport error or a header
that fails integer parsing is swallowed (the warning is logged and zero is
contributed); and the head oracle can never change whether the pipeline
completes: `embed_fonts` succeeds or fails identically under any two head
oracles. -/
theorem head_size_estimation_safe :
    sizeBranch (Except.ok none) = (0, [LogMsg.saved]) ∧
    sizeBranch (Except.error ()) = (0, [LogMsg.sizeWarn]) ∧
    (∀ v : Str, parsePyInt v = none →
      sizeBranch (Except.ok (some v)) = (0, [LogMsg.sizeWarn])) ∧
    ∀ (net : Net) (engine : Engine) (hd1 hd2 : HeadOracle) (svg : Str) (keep : Bool),
      exceptOk (embedFonts net engine hd1 svg keep) =
        exceptOk (embedFonts net engine hd2 svg keep) := by
  refine ⟨rfl, rfl, ?_, ?_⟩
  · intro v hv
    simp [sizeBranch, sizeBranchBody, hv]
  · intro net engine hd1 hd2 svg keep
    unfold embedFonts
    dsimp only
    have h := removalLoop_hd_eq keep (fontFacesFromSvg svg) hd1 hd2
      { svg := svg, total := 0,
        log := if (fontFacesFromSvg svg).isEmpty then [.noFonts] else [.foundFonts],
        toProcess := [] }
      { svg := svg, total := 0,
        log := if (fontFacesFromSvg svg).isEmpty then [.noFonts] else [.foundFonts],
        toProcess := [] } rfl rfl
    rw [h.2]
    exact processLoop_exceptOk net engine _ _ _

theorem head_size_estimation_safe_witness :
    parsePyInt ("xyz".toList) = none ∧
    sizeBranch (Except.ok (some ("xyz".toList))) = (0, [LogMsg.sizeWarn]) :=
  ⟨by decide, head_size_estimation_safe.2.2.1 ("xyz".toList) (by decide)⟩

theorem expectLit_append (lit : Str) : ∀ rest : Str, expectLit lit (lit ++ rest) = some rest := by
  induction lit with
  | nil => intro rest; rfl
  | cons l ls ih => intro rest; simp [expectLit, ih]

theorem dropWhile_append_of_all (p : Char → Bool) :
    ∀ (u : Str) (b : Char) (t : Str), u.all p = true → p b = false →
      (u ++ b :: t).dropWhile p = b :: t := by
  intro u
  induction u with
  | nil => intro b t _ hb; simp [List.dropWhile_cons, hb]
  | cons x xs ih =>
    intro b t hu hb
    rw [List.all_cons, Bool.and_eq_true] at hu
    simp only [List.cons_append, List.dropWhile_cons, hu.1, if_true]
    exact ih b t hu.2 hb

/-- The shape of a complete `src: url(<u>);` clause as matched and replaced by
the `re.sub` pattern at line 199. -/
def srcClause (u : Str) : Str :=
  litSrcColon ++ (' ' :: (litUrlOpen ++ (u ++ [')', ';'])))

theorem trySrcClause_clause (u suf : Str)
    (hu : u.all (fun c => c ≠ ')') = true) :
    trySrcClause (srcClause u ++ suf) = some suf := by
  have e1 : srcClause u ++ suf =
      litSrcColon ++ (' ' :: ('u' :: 'r' :: 'l' :: '(' :: (u ++ ')' :: ';' :: suf))) := by
    simp [srcClause, litUrlOpen, List.append_assoc]
  rw [trySrcClause, e1, expectLit_append, Option.some_bind]
  have e2 : (' ' :: 'u' :: 'r' :: 'l' :: '(' :: (u ++ ')' :: ';' :: suf)).dropWhile isPySpace
      = litUrlOpen ++ (u ++ ')' :: ';' :: suf) := by
    simp [litUrlOpen, List.dropWhile_cons, isPySpace]
  rw [e2, expectLit_append, Option.some_bind]
  have e4 : (u ++ ')' :: ';' :: suf).dropWhile (fun c => c ≠ ')') = ')' :: ';' :: suf :=
    dropWhile_append_of_all _ u ')' (';' :: suf) hu (by decide)
  rw [e4]
  have e5 : expectLit [')'] (')' :: ';' :: suf) = some (';' :: suf) :=
    expectLit_append [')'] (';' :: suf)
  rw [e5, Option.some_bind]
  have e6 : (';' :: suf).dropWhile isPySpace = ';' :: suf := by
    simp [List.dropWhile_cons, isPySpace]
  rw [e6]
  exact expectLit_append [';'] suf

theorem trySrcClause_some_length (s rem : Str) (h : trySrcClause s = some rem) :
    rem.length < s.length := by
  rw [trySrcClause] at h
  cases h1 : expectLit litSrcColon s with
  | none => rw [h1] at h; cases h
  | some s1 =>
    rw [h1, Option.some_bind] at h
    cases h2 : expectLit litUrlOpen (s1.dropWhile isPySpace) with
    | none => rw [h2] at h; cases h
    | some s3 =>
      rw [h2, Option.some_bind] at h
      cases h3 : expectLit [')'] (s3.dropWhile (fun c => c ≠ ')')) with
      | none => rw [h3] at h; cases h
      | some s5 =>
        rw [h3, Option.some_bind] at h
        have e1 := expectLit_some_length _ s s1 h1
        have e2 := expectLit_some_length _ _ s3 h2
        have e3 := expectLit_some_length _ _ s5 h3
        have e4 := expectLit_some_length _ _ rem h
        have l1 : (s1.dropWhile isPySpace).length ≤ s1.length :=
          (List.dropWhile_suffix _).length_le
        have l2 : (s3.dropWhile (fun c => c ≠ ')')).length ≤ s3.length :=
          (List.dropWhile_suffix _).length_le
        have l3 : (s5.dropWhile isPySpace).length ≤ s5.length :=
          (List.dropWhile_suffix _).length_le
        simp only [litSrcColon, litUrlOpen, List.length_cons, List.length_nil] at e1 e2 e3 e4
        omega

theorem subSrcFuel_irrel (rep : Str) :
    ∀ (f1 : Nat) (s : Str) (f2 : Nat), s.length ≤ f1 → s.length ≤ f2 →
      subSrcFuel rep f1 s = subSrcFuel rep f2 s := by
  intro f1
  induction f1 with
  | zero =>
    intro s f2 h1 _
    have : s = [] := List.eq_nil_of_length_eq_zero (Nat.le_zero.mp h1)
    subst this
    cases f2 <;> rfl
  | succ f ih =>
    intro s f2 h1 h2
    cases s with
    | nil => cases f2 <;> rfl
    | cons c rest =>
      cases f2 with
      | zero => simp at h2
      | succ g =>
        cases h : trySrcClause (c :: rest) with
        | none =>
          have hr : rest.length ≤ f := by simp at h1; omega
          have hg : rest.length ≤ g := by simp at h2; omega
          simp only [subSrcFuel, h]
          rw [ih rest g hr hg]
        | some rem =>
          have hl := trySrcClause_some_length _ rem h
          have hr : rem.length ≤ f := by simp at h1 hl; omega
          have hg : rem.length ≤ g := by simp at h2 hl; omega
          simp only [subSrcFuel, h]
          rw [ih rem g hr hg]

theorem subSrc_nil (rep : Str) : subSrcClause rep [] = [] := rfl

theorem subSrc_cons_none (rep : Str) (c : Char) (rest : Str)
    (h : trySrcClause (c :: rest) = none) :
    subSrcClause rep (c :: rest) = c :: subSrcClause rep rest := by
  show subSrcFuel rep (c :: rest).length (c :: rest) = _
  simp only [List.length_cons, subSrcFuel, h]
  rfl

theorem subSrc_match (rep : Str) (s rem : Str) (h : trySrcClause s = some rem)
    (hs : s ≠ []) : subSrcClause rep s = rep ++ subSrcClause rep rem := by
  cases s with
  | nil => exact absurd rfl hs
  | cons c rest =>
    have hl := trySrcClause_some_length _ rem h
    show subSrcFuel rep (c :: rest).length (c :: rest) = _
    simp only [List.length_cons, subSrcFuel, h]
    rw [subSrcFuel_irrel rep rest.length rem rem.length (by simp at hl; omega)
      (Nat.le_refl _)]
    rfl

/-- No position inside `pre` (viewed against the tail `rest`) starts a match of
the `src: url(...);` pattern. -/
def cleanScan : Str → Str → Bool
  | [], _ => true
  | p :: pre, rest => (trySrcClause (p :: (pre ++ rest))).isNone && cleanScan pre rest

theorem subSrc_walk (rep : Str) : ∀ (pre rest : Str), cleanScan pre rest = true →
    subSrcClause rep (pre ++ rest) = pre ++ subSrcClause rep rest := by
  intro pre
  induction pre with
  | nil => intro rest _; rfl
  | cons p pre' ih =>
    intro rest hc
    rw [cleanScan, Bool.and_eq_true] at hc
    have hn : trySrcClause (p :: (pre' ++ rest)) = none :=
      Option.isNone_iff_eq_none.mp hc.1
    rw [List.cons_append, subSrc_cons_none rep p (pre' ++ rest) hn, ih rest hc.2,
      List.cons_append]

theorem subSrc_untouched (rep : Str) (suf : Str) (h : cleanScan suf [] = true) :
    subSrcClause rep suf = suf := by
  have hw := subSrc_walk rep suf [] h
  rw [List.append_nil, subSrc_nil, List.append_nil] at hw
  exact hw

/-- Claim C5: for every record whose subset build succeeds (non-empty fetched
bytes) and whose declaration consists of a single well-formed
`src: url(<u>);` clause surrounded by clause-free text, the rewritten
declaration replaces exactly that clause with
`src: url(\x27data:font/woff2;base64,<payload>\x27) format(\x27woff2\x27);`,
where the payload is the base64 encoding of the subsetting engine's output,
and the surrounding declaration text is unchanged; the result is paired with
the original (pre-subset) byte size. -/
theorem subset_definition_src_rewrite (net : Net) (engine : Engine)
    (face : FontFace) (chars : Str) (pre u suf : Str) (b : List Nat)
    (hdef : face.font_face_definition = pre ++ (srcClause u ++ suf))
    (hfetch : fetchBody net face = .ok (some b))
    (hb : b.isEmpty = false)
    (hu : u.all (fun c => c ≠ ')') = true)
    (hpre : cleanScan pre (srcClause u ++ suf) = true)
    (hsuf : cleanScan suf [] = true) :
    getFontSubsetDefinition net engine face chars =
      .ok (some (pre ++ (embeddedSrcLine (base64Encode (engine b chars)) ++ suf),
        b.length)) := by
  have hsub : subSrcClause (embeddedSrcLine (base64Encode (engine b chars)))
      face.font_face_definition
      = pre ++ (embeddedSrcLine (base64Encode (engine b chars)) ++ suf) := by
    rw [hdef, subSrc_walk _ _ _ hpre,
      subSrc_match _ _ suf (trySrcClause_clause u suf hu)
        (by simp [srcClause, litSrcColon]),
      subSrc_untouched _ suf hsuf]
  simp only [getFontSubsetDefinition, hfetch, hb, Bool.false_eq_true, if_false, hsub]

def faceC5 : FontFace :=
  { font_face_definition := ("@font-face \x7b font-family: F; ".toList) ++
      (srcClause ("http://x/f.woff2".toList) ++ " \x7d".toList) }

theorem subset_definition_src_rewrite_witness :
    getFontSubsetDefinition netBytes engineId faceC5 ("AB".toList) =
      .ok (some (("@font-face \x7b font-family: F; ".toList) ++
        (embeddedSrcLine (base64Encode (engineId [7, 8] ("AB".toList))) ++ " \x7d".toList),
        2)) :=
  subset_definition_src_rewrite netBytes engineId faceC5 ("AB".toList)
    ("@font-face \x7b font-family: F; ".toList) ("http://x/f.woff2".toList)
    (" \x7d".toList) [7, 8] rfl (by decide) (by decide) (by decide) (by decide)
    (by decide)
